import Mathlib

/-!
Verification of the Haptic Texture Controller ("Haptic Histology") against
its design specification.

The development shallowly embeds the two source programs that carry the
algorithmic content:

* `src/visual-biopsy/app_lab_version/main.py` — `SimpleKMeans` (pure
  arithmetic K-Means on a 1-D intensity list) and `TissueAnalyzer`
  (haptic-map construction and the pixel / normalized coordinate lookups);
* `src/visual-biopsy/linux_brain/haptic_scanner.py` — `MCUCommunicator`
  (the serial transport session: connect / rate-limited density sends /
  disconnect) and the per-tick haptic feedback step of
  `HapticHistologyScanner`.

Python floats are modelled with `ℚ` (all operations involved are exact
field operations), pixel intensities with `ℚ`/`ℕ`, wall-clock time with
`ℚ`, and fallible code with `Except`.  Effects on the serial wire are made
explicit as a list of emitted frames; the success of an individual wire
write is an injected boolean parameter.
-/

namespace HapticTexture

/-! ## Python builtin failures exercised by `SimpleKMeans.fit`

`fit` can fail in exactly two ways: `min(data)` / `min(distances)` on an
empty list raises `ValueError`, and the initial step computation
`(max_val - min_val) / (self.n_clusters - 1)` raises `ZeroDivisionError`
when `n_clusters == 1`.  No other exception type is raised anywhere in
`SimpleKMeans`. -/

inductive PyError where
  | valueError : PyError
  | zeroDivisionError : PyError
deriving DecidableEq, Repr

/-! ## Python `min` / `max` over a nonempty list -/

/-- Python `min(data)` for a nonempty list (junk value `0` on `[]`;
`fit` guards the empty case and returns `ValueError` there). -/
def listMin : List ℚ → ℚ
  | [] => 0
  | x :: xs => xs.foldl min x

/-- Python `max(data)` for a nonempty list (junk value `0` on `[]`). -/
def listMax : List ℚ → ℚ
  | [] => 0
  | x :: xs => xs.foldl max x

theorem foldl_min_le_init (xs : List ℚ) (a : ℚ) : xs.foldl min a ≤ a := by
  induction xs generalizing a with
  | nil => simp
  | cons y ys ih => exact le_trans (ih (min a y)) (min_le_left a y)

theorem foldl_min_le_mem (xs : List ℚ) (a x : ℚ) (hx : x ∈ xs) :
    xs.foldl min a ≤ x := by
  induction xs generalizing a with
  | nil => cases hx
  | cons y ys ih =>
    rcases List.mem_cons.mp hx with rfl | hmem
    · exact le_trans (foldl_min_le_init ys (min a x)) (min_le_right a x)
    · exact ih (min a y) hmem

theorem init_le_foldl_max (xs : List ℚ) (a : ℚ) : a ≤ xs.foldl max a := by
  induction xs generalizing a with
  | nil => simp
  | cons y ys ih => exact le_trans (le_max_left a y) (ih (max a y))

theorem mem_le_foldl_max (xs : List ℚ) (a x : ℚ) (hx : x ∈ xs) :
    x ≤ xs.foldl max a := by
  induction xs generalizing a with
  | nil => cases hx
  | cons y ys ih =>
    rcases List.mem_cons.mp hx with rfl | hmem
    · exact le_trans (le_max_right a x) (init_le_foldl_max ys (max a x))
    · exact ih (max a y) hmem

theorem listMin_le (l : List ℚ) (x : ℚ) (hx : x ∈ l) : listMin l ≤ x := by
  cases l with
  | nil => cases hx
  | cons a xs =>
    rcases List.mem_cons.mp hx with rfl | hmem
    · exact foldl_min_le_init xs x
    · exact foldl_min_le_mem xs a x hmem

theorem le_listMax (l : List ℚ) (x : ℚ) (hx : x ∈ l) : x ≤ listMax l := by
  cases l with
  | nil => cases hx
  | cons a xs =>
    rcases List.mem_cons.mp hx with rfl | hmem
    · exact init_le_foldl_max xs x
    · exact mem_le_foldl_max xs a x hmem

theorem listMin_le_listMax (l : List ℚ) (hl : l ≠ []) :
    listMin l ≤ listMax l := by
  cases l with
  | nil => exact absurd rfl hl
  | cons a xs =>
    exact le_trans (listMin_le (a :: xs) a (List.mem_cons_self a xs))
      (le_listMax (a :: xs) a (List.mem_cons_self a xs))

/-! ## `distances.index(min(distances))`

Python's `min` returns the minimum value and `list.index` returns the
index of its first occurrence, so the composite picks the first index
achieving the minimum. -/

/-- Minimum of a list together with the index of its first occurrence
(`none` on the empty list, where Python `min` raises `ValueError`). -/
def minWithIdx : List ℚ → Option (ℚ × ℕ)
  | [] => none
  | x :: xs =>
    match minWithIdx xs with
    | none => some (x, 0)
    | some (m, j) => if x ≤ m then some (x, 0) else some (m, j + 1)

/-- `SimpleKMeans.predict` / the assignment step of `fit`: the index of the
first centroid at minimal absolute distance from `v` (junk `0` when the
centroid list is empty; `fit` reaches that case only through its explicit
`ValueError` branch). -/
def nearest (cs : List ℚ) (v : ℚ) : ℕ :=
  ((minWithIdx (cs.map fun c => |v - c|)).map Prod.snd).getD 0

theorem minWithIdx_isSome {l : List ℚ} (hl : l ≠ []) :
    (minWithIdx l).isSome := by
  cases l with
  | nil => exact absurd rfl hl
  | cons x xs =>
    cases h : minWithIdx xs with
    | none => simp [minWithIdx, h]
    | some p =>
      rcases p with ⟨m, j⟩
      by_cases hx : x ≤ m <;> simp [minWithIdx, h, hx]

theorem minWithIdx_idx_lt {l : List ℚ} {m : ℚ} {j : ℕ}
    (h : minWithIdx l = some (m, j)) : j < l.length := by
  induction l generalizing m j with
  | nil => simp [minWithIdx] at h
  | cons x xs ih =>
    rw [List.length_cons]
    cases hxs : minWithIdx xs with
    | none =>
      rw [minWithIdx, hxs] at h
      simp at h
      omega
    | some p =>
      rcases p with ⟨m', j'⟩
      rw [minWithIdx, hxs] at h
      by_cases hx : x ≤ m'
      · simp [hx] at h
        omega
      · simp [hx] at h
        have hj' : j' < xs.length := ih hxs
        omega

theorem nearest_lt_length (cs : List ℚ) (v : ℚ) (hcs : cs ≠ []) :
    nearest cs v < cs.length := by
  have hmap : (cs.map fun c => |v - c|) ≠ [] := by
    simpa using hcs
  cases h : minWithIdx (cs.map fun c => |v - c|) with
  | none =>
    have := minWithIdx_isSome hmap
    rw [h] at this
    simp at this
  | some p =>
    rcases p with ⟨m, j⟩
    have hj := minWithIdx_idx_lt h
    rw [List.length_map] at hj
    simpa [nearest, h] using hj

/-! ## `SimpleKMeans` (app_lab_version/main.py, lines 24-64) -/

/-- One round of the `fit` loop: partition `data` by nearest centroid and
recompute each centroid as the mean of its partition, keeping the old
centroid when the partition is empty (`main.py` lines 39-55). -/
def kmeansStep (data cs : List ℚ) : List ℚ :=
  (List.range cs.length).map fun i =>
    let cl := data.filter fun v => nearest cs v = i
    if cl.isEmpty then cs.getD i 0 else cl.sum / (cl.length : ℚ)

/-- `SimpleKMeans.fit` (`main.py` lines 32-59).

Faithful failure modes: `min(data)` on empty data raises `ValueError`;
`n_clusters == 1` makes `step = (max-min)/0` raise `ZeroDivisionError`;
`n_clusters == 0` leaves the centroid list empty so the first assignment
round raises `ValueError` at `min([])` (but with `max_iters == 0` the loop
never runs and `fit` returns the empty, trivially sorted, centroid list).
For `n_clusters ≥ 2` the fit always succeeds: it runs exactly `maxIters`
rounds and finally sorts the centroids ascending (`self.centroids.sort()`). -/
def fit (nClusters maxIters : ℕ) (data : List ℚ) : Except PyError (List ℚ) :=
  if data.isEmpty then .error .valueError
  else if nClusters = 1 then .error .zeroDivisionError
  else if nClusters = 0 then
    if maxIters = 0 then .ok [] else .error .valueError
  else
    let mn := listMin data
    let mx := listMax data
    let step := (mx - mn) / ((nClusters : ℚ) - 1)
    let init := (List.range nClusters).map fun i : ℕ => mn + (i : ℚ) * step
    let final := Nat.iterate (kmeansStep data) maxIters init
    .ok (final.mergeSort fun a b => a ≤ b)

/-! ## `TissueAnalyzer` (app_lab_version/main.py, lines 67-178) -/

/-- The fixed `cluster_to_density` table of `load_and_train`
(`main.py` lines 104-108): ascending cluster rank ↦ density value. -/
def clusterToDensity (c : ℕ) : ℕ :=
  if c = 0 then 0 else if c = 1 then 128 else 255

/-- One cell of the haptic map built by `load_and_train` (`main.py`
lines 110-120): the density assigned to a pixel value is the table entry of
its nearest (sorted) centroid. -/
def hapticDensityOfPixel (cs : List ℚ) (px : ℚ) : ℕ :=
  clusterToDensity (nearest cs px)

/-- The full haptic map built by `load_and_train`: `pixels` is the
row-major pixel list of the resized image, indexed by `y * width + x`. -/
def buildHapticMap (cs : List ℚ) (pixels : List ℚ) (width height : ℕ) :
    List (List ℕ) :=
  (List.range height).map fun y =>
    (List.range width).map fun x =>
      hapticDensityOfPixel cs (pixels.getD (y * width + x) 0)

/-- The fields of `TissueAnalyzer` that the coordinate lookups read. -/
structure Analyzer where
  haptic_map : Option (List (List ℕ))
  image_width : ℕ
  image_height : ℕ
  trained : Bool
deriving DecidableEq, Repr

/-- Row-major cell access `haptic_map[y][x]` (indices are in range at
every call site reached after clamping). -/
def mapAt (m : List (List ℕ)) (x y : ℕ) : ℕ :=
  (m.getD y []).getD x 0

/-- The coordinate clamp of `get_density_at`:
`max(0, min(c, limit - 1))`. -/
def clampCoord (limit : ℕ) (c : ℤ) : ℤ :=
  max 0 (min c ((limit : ℤ) - 1))

/-- `TissueAnalyzer.get_density_at` (`main.py` lines 132-150): returns 0
when untrained, otherwise clamps both coordinates into the image bounds
and reads the haptic map. -/
def get_density_at (a : Analyzer) (x y : ℤ) : ℕ :=
  if a.trained = false ∨ a.haptic_map = none then 0
  else
    let x1 := clampCoord a.image_width x
    let y1 := clampCoord a.image_height y
    mapAt (a.haptic_map.getD []) x1.toNat y1.toNat

/-- Python `int()` applied to a float: truncation toward zero. -/
def truncQ (q : ℚ) : ℤ :=
  if 0 ≤ q then ⌊q⌋ else -⌊-q⌋

/-- `TissueAnalyzer.get_density_normalized` (`main.py` lines 152-170):
multiplies the normalized coordinates by the image dimensions, truncates
toward zero, and delegates to the clamping pixel lookup. -/
def get_density_normalized (a : Analyzer) (xNorm yNorm : ℚ) : ℕ :=
  if a.trained = false then 0
  else get_density_at a (truncQ (xNorm * (a.image_width : ℚ)))
    (truncQ (yNorm * (a.image_height : ℚ)))

/-! ## `TissueSegmenter.get_haptic_value` (linux_brain/haptic_scanner.py,
lines 197-205)

The linux-brain lookup does **not** clamp: coordinates outside
`[0,w) × [0,h)` return 0.  The map is a `h × w` numpy array; we model it
as a rectangular list of rows, reading the shape as
`(m.length, (head row).length)`. -/

def get_haptic_value (hm : Option (List (List ℕ))) (x y : ℤ) : ℕ :=
  match hm with
  | none => 0
  | some m =>
    let h := m.length
    let w := (m.headD []).length
    if 0 ≤ y ∧ y < (h : ℤ) ∧ 0 ≤ x ∧ x < (w : ℤ) then
      mapAt m x.toNat y.toNat
    else 0

/-! ## `MCUCommunicator` (linux_brain/haptic_scanner.py, lines 69-135)

The session state holds the fields the transport methods read and write:
whether `self.serial` is non-`None`, whether the underlying port is still
open, the `demo_mode` flag and `last_send_time`.  Wall-clock time and the
success of each physical wire write are injected parameters; the frames a
call puts on the wire are returned explicitly. -/

/-- A frame on the serial wire. -/
inductive Frame where
  | density (d : ℕ) : Frame
  | mode (m : String) : Frame
deriving DecidableEq, Repr

/-- The wire encoding of a frame (`D:<value>\n` / `M:<name>\n`). -/
def encodeFrame : Frame → String
  | .density d => "D:" ++ toString d ++ "\n"
  | .mode m => "M:" ++ m ++ "\n"

structure MCUState where
  serial_some : Bool
  port_open : Bool
  demo_mode : Bool
  last_send_time : ℚ
deriving DecidableEq, Repr

/-- `self.send_interval = 0.01  # 100Hz max send rate` (line 77). -/
def sendInterval : ℚ := 1 / 100

/-- The state after `MCUCommunicator.__init__` (lines 72-77). -/
def initMCU : MCUState :=
  { serial_some := false, port_open := false, demo_mode := false
    last_send_time := 0 }

/-- `MCUCommunicator.connect` (lines 79-105): on success the serial handle
exists and the port is open (the handshake wait changes no state we
model); on failure `demo_mode` is set. -/
def connect (s : MCUState) (success : Bool) : MCUState :=
  if success then { s with serial_some := true, port_open := true }
  else { s with demo_mode := true }

/-- `MCUCommunicator.send_density` (lines 107-119).  `t` is `time.time()`
at the call, `writeOk` says whether the physical `serial.write` would
succeed (`false` = it raises, and the `except` clause swallows the
exception after printing).  Returns the new state and the frames written
to the wire.  Note the faithful order: the rate-limit check precedes the
serial/demo check, `last_send_time` advances only on a successful write,
and a failed write leaves the whole state unchanged — in particular
`demo_mode` is *not* set. -/
def send_density (s : MCUState) (t : ℚ) (d : ℕ) (writeOk : Bool) :
    MCUState × List Frame :=
  if t - s.last_send_time < sendInterval then (s, [])
  else if s.serial_some = true ∧ s.demo_mode = false then
    if writeOk then ({ s with last_send_time := t }, [Frame.density d])
    else (s, [])
  else (s, [])

/-- `MCUCommunicator.disconnect` (lines 131-135): `if self.serial:
self.serial.close()`.  Closing writes nothing to the wire; pyserial's
`close()` on an already-closed port is a no-op, so a second call is
harmless.  With `self.serial` still `None` (never connected) nothing at
all happens. -/
def disconnect (s : MCUState) : MCUState × List Frame :=
  if s.serial_some = true then ({ s with port_open := false }, [])
  else (s, [])

/-- Replay a list of `send_density` calls, each given as
`(time, density, writeOk)`, collecting every frame written. -/
def runSends (s : MCUState) : List (ℚ × ℕ × Bool) → MCUState × List Frame
  | [] => (s, [])
  | (t, d, ok) :: rest =>
    let r1 := send_density s t d ok
    let r2 := runSends r1.1 rest
    (r2.1, r1.2 ++ r2.2)

/-! ## `HapticHistologyScanner.process_haptic_feedback`
(linux_brain/haptic_scanner.py, lines 369-388) -/

/-- The scanner state touched by one feedback tick. -/
structure ScannerState where
  mcu : MCUState
  current_density : ℕ
  prev_density : ℕ
deriving DecidableEq, Repr

/-- One feedback tick (`process_haptic_feedback`): when the cursor lies
outside the `w × h` image bounds the method returns at once — densities
unchanged, nothing dispatched.  Otherwise it shifts `current_density` into
`prev_density`, looks up the new density in the segmenter's haptic map and
dispatches it through the rate-limited `send_density`.  (The
`EDGE_DETECT` gradient branch computes a local value and does nothing with
it, so it has no effect to model.) -/
def process_haptic_feedback (st : ScannerState) (w h : ℕ)
    (hm : Option (List (List ℕ))) (mx my : ℤ) (t : ℚ) (writeOk : Bool) :
    ScannerState × List Frame :=
  if ¬(0 ≤ mx ∧ mx < (w : ℤ) ∧ 0 ≤ my ∧ my < (h : ℤ)) then (st, [])
  else
    let prev := st.current_density
    let cur := get_haptic_value hm mx my
    let r := send_density st.mcu t cur writeOk
    ({ mcu := r.1, current_density := cur, prev_density := prev }, r.2)

/-! ## Helper lemmas -/

theorem clampCoord_idem (limit : ℕ) (c : ℤ) :
    clampCoord limit (clampCoord limit c) = clampCoord limit c := by
  unfold clampCoord
  omega

theorem clampCoord_neg (limit : ℕ) (c : ℤ) (hc : c ≤ 0) :
    clampCoord limit c = 0 := by
  unfold clampCoord
  omega

theorem clampCoord_past_edge (limit : ℕ) (c : ℤ) (hc : (limit : ℤ) - 1 ≤ c) :
    clampCoord limit c = max 0 ((limit : ℤ) - 1) := by
  unfold clampCoord
  omega

/-! ## Claim theorems -/

/-- C1, counterexample: on a session that connected and then sent a
nonzero density, `disconnect` puts no frame on the wire, so the final wire
write of the whole session is the last `send_density` frame (`D:5`), not
the zero-density motor-off frame `D:0` the spec requires. -/
theorem disconnect_writes_no_motor_off_frame :
    (disconnect (send_density (connect initMCU true) 1 5 true).1).2 = [] ∧
    (send_density (connect initMCU true) 1 5 true).2 ++
        (disconnect (send_density (connect initMCU true) 1 5 true).1).2 =
      [Frame.density 5] ∧
    ([Frame.density 5].getLast? ≠ some (Frame.density 0)) := by
  have hsend : send_density (connect initMCU true) 1 5 true =
      ({ serial_some := true, port_open := true, demo_mode := false
         last_send_time := 1 }, [Frame.density 5]) := by
    norm_num [send_density, connect, initMCU, sendInterval]
  refine ⟨?_, ?_, by decide⟩
  · rw [hsend]
    norm_num [disconnect]
  · rw [hsend]
    norm_num [disconnect]

/-- C1 (amended): `disconnect` is idempotent — a second call changes
nothing and never fails — and is safe when the session never connected
(`self.serial` still `None`: it does nothing at all); but it flushes no
zero-density frame: it writes nothing to the wire, so the final wire write
of a connected session is whatever frame was last sent before shutdown,
not necessarily `D:0`. -/
theorem disconnect_idempotent_and_silent (s : MCUState) :
    disconnect (disconnect s).1 = disconnect s ∧
    (disconnect s).2 = [] ∧
    disconnect initMCU = (initMCU, []) := by
  unfold disconnect initMCU
  by_cases h : s.serial_some = true <;> simp [h]

/-- C2, counterexample: `SimpleKMeans.fit` with `clusterCount == 1` does
not reject the configuration with an `InvalidConfiguration` error (no such
error exists anywhere in the code); the step computation
`(max_val - min_val) / (self.n_clusters - 1)` divides by zero and the call
fails with Python's builtin `ZeroDivisionError`. -/
theorem fit_one_cluster_zero_division :
    fit 1 10 [80, 100] = Except.error PyError.zeroDivisionError := rfl

/-- C2 (amended): for every `clusterCount < 2` on nonempty data, `fit`
fails — but with a Python builtin exception rather than an
`InvalidConfiguration` rejection: `clusterCount == 1` raises
`ZeroDivisionError` computing the initial step, and `clusterCount == 0`
(with at least one iteration round) raises `ValueError` taking the
minimum of an empty distance list.  (`load_and_train` hardcodes
`n_clusters=3` and converts any exception to an error string via its
catch-all handler.) -/
theorem fit_small_clusterCount_raises (n iters : ℕ) (data : List ℚ)
    (hd : data ≠ []) (hn : n < 2) (hi : 1 ≤ iters) :
    fit n iters data =
      Except.error
        (if n = 1 then PyError.zeroDivisionError else PyError.valueError) := by
  have hne : ¬data.isEmpty := by simpa [List.isEmpty_iff] using hd
  interval_cases n
  · have hit : ¬iters = 0 := by omega
    simp [fit, hne, hit]
  · simp [fit, hne]

/-- Witness for C2's amended theorem at `clusterCount = 1`. -/
theorem fit_small_clusterCount_raises_witness :
    ([(80 : ℚ), 100] ≠ ([] : List ℚ)) ∧
      fit 1 10 [80, 100] =
        Except.error
          (if 1 = 1 then PyError.zeroDivisionError else PyError.valueError) :=
  ⟨by decide, fit_small_clusterCount_raises 1 10 [80, 100] (by decide)
    (by decide) (by decide)⟩

/-- C3, counterexample: starting from a connected, non-offline session, a
`send_density` whose wire write raises is swallowed but does **not**
demote the session: `demo_mode` stays `false` (the whole state is
unchanged), and the next `send_density` past the rate-limit interval still
performs a real wire write instead of being a silent no-op. -/
theorem send_density_write_failure_not_demoted :
    ((send_density (connect initMCU true) 1 5 false).1.demo_mode = false) ∧
    (send_density (connect initMCU true) 1 5 false).1 = connect initMCU true ∧
    (send_density (send_density (connect initMCU true) 1 5 false).1 2 7
        true).2 = [Frame.density 7] := by
  have hfail : send_density (connect initMCU true) 1 5 false =
      (connect initMCU true, []) := by
    norm_num [send_density, connect, initMCU, sendInterval]
  refine ⟨?_, ?_, ?_⟩
  · rw [hfail]
    norm_num [connect, initMCU]
  · rw [hfail]
  · rw [hfail]
    norm_num [send_density, connect, initMCU, sendInterval]

/-- C3 (amended): on a connected, non-offline session, a wire-write
exception inside `send_density` does not propagate — the `except` clause
swallows it and the call returns normally — but it leaves the session
state entirely unchanged: `demo_mode` is not set (no demotion to offline)
and `last_send_time` does not advance, so subsequent sends still attempt
wire writes. -/
theorem send_density_write_failure_swallowed (s : MCUState) (t : ℚ) (d : ℕ)
    (hs : s.serial_some = true) (hdm : s.demo_mode = false)
    (hrate : sendInterval ≤ t - s.last_send_time) :
    send_density s t d false = (s, []) := by
  simp [send_density, not_lt.mpr hrate, hs, hdm]

/-- Witness for C3's amended theorem on a freshly connected session. -/
theorem send_density_write_failure_swallowed_witness :
    ((connect initMCU true).serial_some = true ∧
      (connect initMCU true).demo_mode = false ∧
      sendInterval ≤ 1 - (connect initMCU true).last_send_time) ∧
    send_density (connect initMCU true) 1 5 false =
      (connect initMCU true, []) :=
  ⟨⟨by norm_num [connect, initMCU], by norm_num [connect, initMCU],
      by norm_num [sendInterval, connect, initMCU]⟩,
    send_density_write_failure_swallowed (connect initMCU true) 1 5
      (by norm_num [connect, initMCU]) (by norm_num [connect, initMCU])
      (by norm_num [sendInterval, connect, initMCU])⟩

/-- C6, counterexample: the linux-brain lookup
`TissueSegmenter.get_haptic_value` does not clamp out-of-range
coordinates: on the map `[[80]]` the out-of-range query `(-5,-5)` returns
the untrained fallback `0` while the clamped coordinate `(0,0)` holds
`80`, so `query(-5,-5) ≠ query(0,0)`. -/
theorem get_haptic_value_not_clamped :
    get_haptic_value (some [[80]]) (-5) (-5) = 0 ∧
    get_haptic_value (some [[80]]) 0 0 = 80 ∧
    get_haptic_value (some [[80]]) (-5) (-5) ≠
      get_haptic_value (some [[80]]) 0 0 := by
  refine ⟨by decide, by decide, by decide⟩

/-- C6 (amended): the app-lab lookup `TissueAnalyzer.get_density_at` does
clamp: for every analyzer state and all integer coordinates, querying
`(x, y)` equals querying the coordinates clamped into
`[0,width-1] × [0,height-1]`, and in particular
`query(-5,-5) = query(0,0)` and
`query(width+10,height+10) = query(width-1,height-1)`.  The linux-brain
lookup `get_haptic_value` instead rejects out-of-range coordinates,
returning density `0` both below and above the map bounds. -/
theorem get_density_at_clamps (a : Analyzer) (x y : ℤ) (m : List (List ℕ)) :
    (get_density_at a x y =
      get_density_at a (clampCoord a.image_width x)
        (clampCoord a.image_height y)) ∧
    (get_density_at a (-5) (-5) = get_density_at a 0 0) ∧
    (get_density_at a ((a.image_width : ℤ) + 10) ((a.image_height : ℤ) + 10) =
      get_density_at a ((a.image_width : ℤ) - 1) ((a.image_height : ℤ) - 1)) ∧
    (get_haptic_value (some m) (-5) (-5) = 0) ∧
    (get_haptic_value (some m)
      (((m.headD []).length : ℤ) + 10) ((m.length : ℤ) + 10) = 0) := by
  refine ⟨?_, ?_, ?_, ?_, ?_⟩
  · unfold get_density_at
    rw [clampCoord_idem, clampCoord_idem]
  · unfold get_density_at
    rw [clampCoord_neg _ _ (by omega), clampCoord_neg _ _ (by omega),
      clampCoord_neg _ _ le_rfl, clampCoord_neg _ _ le_rfl]
  · unfold get_density_at
    rw [clampCoord_past_edge _ _ (by omega), clampCoord_past_edge _ _ (by omega),
      clampCoord_past_edge _ _ le_rfl, clampCoord_past_edge _ _ le_rfl]
  · simp [get_haptic_value]
  · simp [get_haptic_value]

/-- C7: normalized queries multiply the normalized coordinates by the map
dimensions, truncate toward zero (Python `int()`), then clamp through
`get_density_at`; on a trained analyzer the round-trips
`queryNormalized(0,0) = queryAt(0,0)` and
`queryNormalized(1,1) = queryAt(width-1, height-1)` hold. -/
theorem get_density_normalized_roundtrip (a : Analyzer)
    (ht : a.trained = true) :
    (∀ xn yn : ℚ, get_density_normalized a xn yn =
      get_density_at a (truncQ (xn * (a.image_width : ℚ)))
        (truncQ (yn * (a.image_height : ℚ)))) ∧
    get_density_normalized a 0 0 = get_density_at a 0 0 ∧
    get_density_normalized a 1 1 =
      get_density_at a ((a.image_width : ℤ) - 1) ((a.image_height : ℤ) - 1) := by
  have hnot : ¬a.trained = false := by simp [ht]
  refine ⟨fun xn yn => by simp [get_density_normalized, hnot], ?_, ?_⟩
  · simp [get_density_normalized, hnot, truncQ]
  · have h1 : truncQ (1 * (a.image_width : ℚ)) = (a.image_width : ℤ) := by
      simp [truncQ]
    have h2 : truncQ (1 * (a.image_height : ℚ)) = (a.image_height : ℤ) := by
      simp [truncQ]
    rw [get_density_normalized, if_neg hnot, h1, h2]
    unfold get_density_at
    rw [clampCoord_past_edge _ _ (by omega), clampCoord_past_edge _ _ le_rfl,
      clampCoord_past_edge _ _ (by omega), clampCoord_past_edge _ _ le_rfl]

/-- Witness for C7 on a concrete trained 2×2 analyzer. -/
theorem get_density_normalized_roundtrip_witness :
    ((⟨some [[0, 128], [128, 255]], 2, 2, true⟩ : Analyzer).trained = true) ∧
    (get_density_normalized ⟨some [[0, 128], [128, 255]], 2, 2, true⟩ 1 1 =
      get_density_at (⟨some [[0, 128], [128, 255]], 2, 2, true⟩ : Analyzer)
        (((⟨some [[0, 128], [128, 255]], 2, 2, true⟩ : Analyzer).image_width :
          ℤ) - 1)
        (((⟨some [[0, 128], [128, 255]], 2, 2, true⟩ : Analyzer).image_height :
          ℤ) - 1)) :=
  ⟨rfl, (get_density_normalized_roundtrip
    ⟨some [[0, 128], [128, 255]], 2, 2, true⟩ rfl).2.2⟩

theorem foldl_min_mem (xs : List ℚ) (a : ℚ) : xs.foldl min a ∈ a :: xs := by
  induction xs generalizing a with
  | nil => simp
  | cons y ys ih =>
    rw [List.foldl_cons]
    rcases List.mem_cons.mp (ih (min a y)) with h1 | h1
    · rcases min_cases a y with ⟨he, _⟩ | ⟨he, _⟩
      · rw [h1, he]
        exact List.mem_cons_self _ _
      · rw [h1, he]
        exact List.mem_cons_of_mem _ (List.mem_cons_self _ _)
    · exact List.mem_cons_of_mem _ (List.mem_cons_of_mem _ h1)

theorem foldl_max_mem (xs : List ℚ) (a : ℚ) : xs.foldl max a ∈ a :: xs := by
  induction xs generalizing a with
  | nil => simp
  | cons y ys ih =>
    rw [List.foldl_cons]
    rcases List.mem_cons.mp (ih (max a y)) with h1 | h1
    · rcases max_cases a y with ⟨he, _⟩ | ⟨he, _⟩
      · rw [h1, he]
        exact List.mem_cons_self _ _
      · rw [h1, he]
        exact List.mem_cons_of_mem _ (List.mem_cons_self _ _)
    · exact List.mem_cons_of_mem _ (List.mem_cons_of_mem _ h1)

theorem listMin_mem (l : List ℚ) (hl : l ≠ []) : listMin l ∈ l := by
  cases l with
  | nil => exact absurd rfl hl
  | cons a xs => exact foldl_min_mem xs a

theorem listMax_mem (l : List ℚ) (hl : l ≠ []) : listMax l ∈ l := by
  cases l with
  | nil => exact absurd rfl hl
  | cons a xs => exact foldl_max_mem xs a

theorem minWithIdx_replicate (n : ℕ) (d : ℚ) (hn : n ≠ 0) :
    minWithIdx (List.replicate n d) = some (d, 0) := by
  induction n with
  | zero => exact absurd rfl hn
  | succ k ih =>
    cases k with
    | zero => rfl
    | succ m =>
      rw [List.replicate_succ, minWithIdx, ih (by omega)]
      simp

theorem nearest_replicate (n : ℕ) (v x : ℚ) (hn : n ≠ 0) :
    nearest (List.replicate n v) x = 0 := by
  rw [nearest, List.map_replicate, minWithIdx_replicate n _ hn]
  rfl

theorem getD_replicate_lt (n i : ℕ) (v d : ℚ) (hi : i < n) :
    (List.replicate n v).getD i d = v := by
  rw [List.getD_eq_getElem _ _ (by simpa using hi)]
  exact List.getElem_replicate ..

/-- On data whose values are all `v`, one K-Means round fixes the uniform
centroid list: every point lands in cluster 0, whose mean is `v`, and
every other (empty) cluster keeps its old centroid `v`. -/
theorem kmeansStep_uniform (data : List ℚ) (v : ℚ) (n : ℕ)
    (hd : data ≠ []) (hv : ∀ x ∈ data, x = v) (hn : n ≠ 0) :
    kmeansStep data (List.replicate n v) = List.replicate n v := by
  unfold kmeansStep
  rw [List.length_replicate]
  apply List.eq_replicate_iff.mpr
  refine ⟨by simp, ?_⟩
  intro b hb
  simp only [List.mem_map, List.mem_range] at hb
  obtain ⟨i, hi, hbi⟩ := hb
  subst hbi
  by_cases hi0 : i = 0
  · subst hi0
    have hfil : (data.filter fun x => nearest (List.replicate n v) x = 0) =
        data :=
      List.filter_eq_self.mpr fun x _ => by
        simp [nearest_replicate n v x hn]
    simp only [hfil]
    rw [if_neg (by simpa [List.isEmpty_iff] using hd)]
    have hdata : data = List.replicate data.length v :=
      List.eq_replicate_iff.mpr ⟨rfl, hv⟩
    have hlen : (data.length : ℚ) ≠ 0 :=
      Nat.cast_ne_zero.mpr (List.length_pos.mpr hd).ne'
    rw [hdata, List.sum_replicate, List.length_replicate, nsmul_eq_mul]
    exact mul_div_cancel_left₀ v hlen
  · have hfil : (data.filter fun x => nearest (List.replicate n v) x = i) =
        [] :=
      List.filter_eq_nil_iff.mpr fun x _ => by
        simp only [nearest_replicate n v x hn, decide_eq_true_eq]
        omega
    simp only [hfil, List.isEmpty_nil, if_true]
    exact getD_replicate_lt n i v 0 hi

theorem mergeSort_replicate (n : ℕ) (v : ℚ) :
    (List.replicate n v).mergeSort (fun a b => a ≤ b) = List.replicate n v :=
  List.eq_replicate_iff.mpr
    ⟨by rw [List.length_mergeSort, List.length_replicate],
      fun b hb => List.eq_of_mem_replicate (List.mem_mergeSort.mp hb)⟩

/-- C5: on an image whose pixels all share one intensity (`min == max`),
`fit` with `clusterCount ≥ 2` does not divide by zero: the step is the
well-defined `0 / (clusterCount - 1) = 0`, all initial centroids are equal
to the common value, every one of the `maxIters` rounds maps that centroid
list to itself, and the result is the `clusterCount` equal (finite,
rational — never not-a-number) centroids. -/
theorem fit_uniform_no_division_by_zero (n iters : ℕ) (data : List ℚ)
    (v : ℚ) (hn : 2 ≤ n) (hd : data ≠ []) (hv : ∀ x ∈ data, x = v) :
    fit n iters data = Except.ok (List.replicate n v) := by
  have hne : ¬data.isEmpty = true := by simpa [List.isEmpty_iff] using hd
  have h1 : ¬n = 1 := by omega
  have h0 : ¬n = 0 := by omega
  unfold fit
  rw [if_neg hne, if_neg h1, if_neg h0]
  have hmn : listMin data = v := hv _ (listMin_mem data hd)
  have hmx : listMax data = v := hv _ (listMax_mem data hd)
  have hinit : ((List.range n).map fun i : ℕ =>
      listMin data + (i : ℚ) *
        ((listMax data - listMin data) / ((n : ℚ) - 1))) =
        List.replicate n v := by
    rw [hmn, hmx, sub_self, zero_div]
    apply List.eq_replicate_iff.mpr
    refine ⟨by rw [List.length_map, List.length_range], ?_⟩
    intro b hb
    simp only [List.mem_map, List.mem_range] at hb
    obtain ⟨i, _, rfl⟩ := hb
    ring
  show Except.ok ((Nat.iterate (kmeansStep data) iters
      ((List.range n).map fun i : ℕ => listMin data + (i : ℚ) *
        ((listMax data - listMin data) / ((n : ℚ) - 1)))).mergeSort
          fun a b => a ≤ b) = _
  rw [hinit,
    Function.iterate_fixed (kmeansStep_uniform data v n hd hv h0) iters,
    mergeSort_replicate]

/-- Witness for C5: the spec scenario — a uniform all-80 image fitted with
3 clusters. -/
theorem fit_uniform_no_division_by_zero_witness :
    ((2 ≤ 3) ∧ (List.replicate 5 (80 : ℚ) ≠ []) ∧
      (∀ x ∈ List.replicate 5 (80 : ℚ), x = 80)) ∧
    fit 3 10 (List.replicate 5 (80 : ℚ)) =
      Except.ok (List.replicate 3 (80 : ℚ)) :=
  ⟨⟨by decide, by decide, fun x hx => List.eq_of_mem_replicate hx⟩,
    fit_uniform_no_division_by_zero 3 10 _ 80 (by decide) (by decide)
      (fun x hx => List.eq_of_mem_replicate hx)⟩

theorem mean_bounds (l : List ℚ) (a b : ℚ) (hl : l ≠ [])
    (hlb : ∀ x ∈ l, a ≤ x) (hub : ∀ x ∈ l, x ≤ b) :
    a ≤ l.sum / (l.length : ℚ) ∧ l.sum / (l.length : ℚ) ≤ b := by
  have hpos : (0 : ℚ) < (l.length : ℚ) := by
    exact_mod_cast List.length_pos.mpr hl
  constructor
  · rw [le_div_iff₀ hpos]
    calc a * (l.length : ℚ) = l.length • a := by rw [nsmul_eq_mul, mul_comm]
      _ ≤ l.sum := List.card_nsmul_le_sum l a hlb
  · rw [div_le_iff₀ hpos]
    calc l.sum ≤ l.length • b := List.sum_le_card_nsmul l b hub
      _ = b * (l.length : ℚ) := by rw [nsmul_eq_mul, mul_comm]

/-- One K-Means round keeps every centroid inside `[a, b]` when all data
and all previous centroids lie in `[a, b]`: a nonempty partition's new
centroid is a mean of data values and an empty partition keeps its
previous centroid. -/
theorem kmeansStep_mem_range (data cs : List ℚ) (a b : ℚ)
    (hdata : ∀ x ∈ data, a ≤ x ∧ x ≤ b)
    (hcs : ∀ c ∈ cs, a ≤ c ∧ c ≤ b) :
    ∀ c ∈ kmeansStep data cs, a ≤ c ∧ c ≤ b := by
  intro c hc
  simp only [kmeansStep, List.mem_map, List.mem_range] at hc
  obtain ⟨i, hi, hci⟩ := hc
  by_cases hemp : (data.filter fun v => nearest cs v = i).isEmpty
  · rw [if_pos hemp] at hci
    have hmem : cs.getD i 0 ∈ cs := by
      rw [List.getD_eq_getElem _ _ hi]
      exact List.getElem_mem hi
    exact hci ▸ hcs _ hmem
  · rw [if_neg hemp] at hci
    have hne : (data.filter fun v => nearest cs v = i) ≠ [] := by
      simpa [List.isEmpty_iff] using hemp
    exact hci ▸ mean_bounds _ a b hne
      (fun x hx => (hdata x (List.mem_of_mem_filter hx)).1)
      (fun x hx => (hdata x (List.mem_of_mem_filter hx)).2)

theorem kmeansStep_length (data cs : List ℚ) :
    (kmeansStep data cs).length = cs.length := by
  rw [kmeansStep, List.length_map, List.length_range]

theorem iterate_kmeansStep_invariant (data : List ℚ) (a b : ℚ)
    (hdata : ∀ x ∈ data, a ≤ x ∧ x ≤ b) (k : ℕ) :
    ∀ cs : List ℚ, (∀ c ∈ cs, a ≤ c ∧ c ≤ b) →
      (Nat.iterate (kmeansStep data) k cs).length = cs.length ∧
        ∀ c ∈ Nat.iterate (kmeansStep data) k cs, a ≤ c ∧ c ≤ b := by
  induction k with
  | zero => exact fun cs hcs => ⟨rfl, hcs⟩
  | succ m ih =>
    intro cs hcs
    rw [Function.iterate_succ_apply]
    obtain ⟨h1, h2⟩ := ih (kmeansStep data cs)
      (kmeansStep_mem_range data cs a b hdata hcs)
    exact ⟨h1.trans (kmeansStep_length data cs), h2⟩

/-- C10: for nonempty data and `n_clusters ≥ 2`, `fit` succeeds and its
centroid list has exactly `n_clusters` entries, each lying within
`[min(data), max(data)]`; the range is preserved through every update
round because nonempty partitions take means of data values and empty
partitions keep their previous centroids. -/
theorem fit_centroid_count_and_range (n iters : ℕ) (data : List ℚ)
    (hn : 2 ≤ n) (hd : data ≠ []) :
    ∃ cs, fit n iters data = Except.ok cs ∧ cs.length = n ∧
      ∀ c ∈ cs, listMin data ≤ c ∧ c ≤ listMax data := by
  have hne : ¬data.isEmpty = true := by simpa [List.isEmpty_iff] using hd
  have h1 : ¬n = 1 := by omega
  have h0 : ¬n = 0 := by omega
  have hdata : ∀ x ∈ data, listMin data ≤ x ∧ x ≤ listMax data :=
    fun x hx => ⟨listMin_le data x hx, le_listMax data x hx⟩
  have hmnmx : listMin data ≤ listMax data := listMin_le_listMax data hd
  have hn1 : (0 : ℚ) < (n : ℚ) - 1 := by
    have h2 : (2 : ℚ) ≤ (n : ℚ) := by exact_mod_cast hn
    linarith
  have hstep_nonneg :
      0 ≤ (listMax data - listMin data) / ((n : ℚ) - 1) :=
    div_nonneg (by linarith) hn1.le
  have hinit : ∀ c ∈ (List.range n).map (fun i : ℕ => listMin data +
      (i : ℚ) * ((listMax data - listMin data) / ((n : ℚ) - 1))),
      listMin data ≤ c ∧ c ≤ listMax data := by
    intro c hc
    simp only [List.mem_map, List.mem_range] at hc
    obtain ⟨i, hi, rfl⟩ := hc
    have hmul0 : 0 ≤ (i : ℚ) *
        ((listMax data - listMin data) / ((n : ℚ) - 1)) :=
      mul_nonneg (Nat.cast_nonneg i) hstep_nonneg
    refine ⟨by linarith, ?_⟩
    have hi' : (i : ℚ) ≤ (n : ℚ) - 1 := by
      have hcast : ((i : ℚ) + 1) ≤ (n : ℚ) := by exact_mod_cast hi
      linarith
    have hmul : (i : ℚ) *
        ((listMax data - listMin data) / ((n : ℚ) - 1)) ≤
        ((n : ℚ) - 1) * ((listMax data - listMin data) / ((n : ℚ) - 1)) :=
      mul_le_mul_of_nonneg_right hi' hstep_nonneg
    have hcancel : ((n : ℚ) - 1) *
        ((listMax data - listMin data) / ((n : ℚ) - 1)) =
        listMax data - listMin data := by
      rw [mul_comm, div_mul_cancel₀ _ (ne_of_gt hn1)]
    linarith
  have hinv := iterate_kmeansStep_invariant data (listMin data)
    (listMax data) hdata iters _ hinit
  refine ⟨(Nat.iterate (kmeansStep data) iters
      ((List.range n).map fun i : ℕ => listMin data + (i : ℚ) *
        ((listMax data - listMin data) / ((n : ℚ) - 1)))).mergeSort
          (fun a b => a ≤ b), ?_, ?_, ?_⟩
  · unfold fit
    rw [if_neg hne, if_neg h1, if_neg h0]
  · rw [List.length_mergeSort, hinv.1, List.length_map, List.length_range]
  · exact fun c hc => hinv.2 c (List.mem_mergeSort.mp hc)

/-- Witness for C10 on the three-band intensity data of the spec
scenario. -/
theorem fit_centroid_count_and_range_witness :
    ((2 ≤ 3) ∧ ([(20 : ℚ), 150, 240] ≠ [])) ∧
    ∃ cs, fit 3 10 [(20 : ℚ), 150, 240] = Except.ok cs ∧ cs.length = 3 ∧
      ∀ c ∈ cs, listMin [(20 : ℚ), 150, 240] ≤ c ∧
        c ≤ listMax [(20 : ℚ), 150, 240] :=
  ⟨⟨by decide, List.cons_ne_nil _ _⟩,
    fit_centroid_count_and_range 3 10 [(20 : ℚ), 150, 240] (by decide)
      (List.cons_ne_nil _ _)⟩

theorem sorted_mergeSort_le (l : List ℚ) :
    List.Sorted (· ≤ ·) (l.mergeSort fun a b => a ≤ b) := by
  have h := @List.sorted_mergeSort ℚ (fun a b : ℚ => decide (a ≤ b))
    (fun a b c hab hbc => decide_eq_true
      (le_trans (of_decide_eq_true hab) (of_decide_eq_true hbc)))
    (fun a b => by
      simpa [Bool.or_eq_true, decide_eq_true_eq] using le_total a b)
    l
  exact List.Pairwise.imp (fun hab => of_decide_eq_true hab) h

theorem getD_map_range {α : Type} (n i : ℕ) (f : ℕ → α) (d : α)
    (hi : i < n) : ((List.range n).map f).getD i d = f i := by
  rw [List.getD_eq_getElem _ _ (by simpa using hi)]
  simp

/-- C8: for `clusterCount ≥ 2` on nonempty data, the centroid list `fit`
produces is sorted in non-decreasing order (index 0 is the darkest
cluster), every haptic-map cell holds the fixed density-table entry of the
pixel's nearest-centroid rank in that sorted list, and the table itself is
strictly increasing in rank (rank 0 ↦ lowest density 0, top rank ↦ highest
density 255) — independent of the order in which clusters were fit, since
the final `sort()` fixes the rank order. -/
theorem fit_centroids_sorted_rank_mapped (n iters : ℕ) (data : List ℚ)
    (hn : 2 ≤ n) (hd : data ≠ []) :
    ∃ cs, fit n iters data = Except.ok cs ∧
      List.Sorted (· ≤ ·) cs ∧
      (∀ (pixels : List ℚ) (w h x y : ℕ), x < w → y < h →
        mapAt (buildHapticMap cs pixels w h) x y =
          clusterToDensity (nearest cs (pixels.getD (y * w + x) 0))) ∧
      clusterToDensity 0 < clusterToDensity 1 ∧
      clusterToDensity 1 < clusterToDensity 2 := by
  have hne : ¬data.isEmpty = true := by simpa [List.isEmpty_iff] using hd
  have h1 : ¬n = 1 := by omega
  have h0 : ¬n = 0 := by omega
  refine ⟨(Nat.iterate (kmeansStep data) iters
      ((List.range n).map fun i : ℕ => listMin data + (i : ℚ) *
        ((listMax data - listMin data) / ((n : ℚ) - 1)))).mergeSort
          (fun a b => a ≤ b), ?_, ?_, ?_, ?_, ?_⟩
  · unfold fit
    rw [if_neg hne, if_neg h1, if_neg h0]
  · exact sorted_mergeSort_le _
  · intro pixels w h x y hx hy
    rw [mapAt, buildHapticMap, getD_map_range h y _ [] hy,
      getD_map_range w x _ 0 hx]
    rfl
  · decide
  · decide

/-- Witness for C8 on a two-value intensity distribution. -/
theorem fit_centroids_sorted_rank_mapped_witness :
    ((2 ≤ 2) ∧ ([(10 : ℚ), 200] ≠ [])) ∧
    ∃ cs, fit 2 1 [(10 : ℚ), 200] = Except.ok cs ∧
      List.Sorted (· ≤ ·) cs ∧
      (∀ (pixels : List ℚ) (w h x y : ℕ), x < w → y < h →
        mapAt (buildHapticMap cs pixels w h) x y =
          clusterToDensity (nearest cs (pixels.getD (y * w + x) 0))) ∧
      clusterToDensity 0 < clusterToDensity 1 ∧
      clusterToDensity 1 < clusterToDensity 2 :=
  ⟨⟨by decide, List.cons_ne_nil _ _⟩,
    fit_centroids_sorted_rank_mapped 2 1 [(10 : ℚ), 200] (by decide)
      (List.cons_ne_nil _ _)⟩

theorem sendInterval_pos : 0 < sendInterval := by norm_num [sendInterval]

/-- Any call that does not put a frame on the wire leaves the session
state untouched: all three non-writing branches of `send_density` return
the state unchanged with no frame. -/
theorem send_density_noop (s : MCUState) (t : ℚ) (d : ℕ) (ok : Bool)
    (h : t - s.last_send_time < sendInterval ∨
      ¬(s.serial_some = true ∧ s.demo_mode = false) ∨ ok = false) :
    send_density s t d ok = (s, []) := by
  unfold send_density
  rcases h with h | h | h
  · rw [if_pos h]
  · by_cases hrate : t - s.last_send_time < sendInterval
    · rw [if_pos hrate]
    · rw [if_neg hrate, if_neg h]
  · subst h
    by_cases hrate : t - s.last_send_time < sendInterval
    · rw [if_pos hrate]
    · rw [if_neg hrate]
      by_cases hconn : s.serial_some = true ∧ s.demo_mode = false
      · simp [hconn]
      · rw [if_neg hconn]

theorem runSends_cons_noop (s : MCUState) (t : ℚ) (d : ℕ) (ok : Bool)
    (rest : List (ℚ × ℕ × Bool)) (h : send_density s t d ok = (s, [])) :
    runSends s ((t, d, ok) :: rest) = runSends s rest := by
  simp [runSends, h]

theorem runSends_cons_write (s : MCUState) (t : ℚ) (d : ℕ)
    (rest : List (ℚ × ℕ × Bool))
    (hrate : ¬(t - s.last_send_time < sendInterval))
    (hser : s.serial_some = true) (hdm : s.demo_mode = false) :
    runSends s ((t, d, true) :: rest) =
      ((runSends { s with last_send_time := t } rest).1,
        Frame.density d ::
          (runSends { s with last_send_time := t } rest).2) := by
  simp [runSends, send_density, hrate, hser, hdm]

/-- Writes are spaced by at least `sendInterval`: when every call time is
at most `B`, the number of frames a call burst can emit is bounded by
`⌊(B - last_send_time) / sendInterval⌋`. -/
theorem runSends_length_le_floor (calls : List (ℚ × ℕ × Bool))
    (s : MCUState) (B : ℚ) (hB : ∀ c ∈ calls, c.1 ≤ B) :
    (runSends s calls).2.length ≤
      (⌊(B - s.last_send_time) / sendInterval⌋).toNat := by
  induction calls generalizing s with
  | nil => simp [runSends]
  | cons c rest ih =>
    obtain ⟨t, d, ok⟩ := c
    have ht : t ≤ B := hB _ (List.mem_cons_self _ _)
    have hBrest : ∀ c ∈ rest, c.1 ≤ B := fun c hc =>
      hB c (List.mem_cons_of_mem _ hc)
    by_cases hw : ¬(t - s.last_send_time < sendInterval) ∧
        s.serial_some = true ∧ s.demo_mode = false ∧ ok = true
    · obtain ⟨hrate, hser, hdm, hok⟩ := hw
      subst hok
      rw [runSends_cons_write s t d rest hrate hser hdm]
      have hrest := ih { s with last_send_time := t } hBrest
      dsimp only at hrest
      have ipos : (0 : ℚ) < sendInterval := sendInterval_pos
      have hstep : sendInterval ≤ t - s.last_send_time := le_of_not_lt hrate
      have hmono : (B - t) / sendInterval + 1 ≤
          (B - s.last_send_time) / sendInterval := by
        rw [div_add' _ _ _ (ne_of_gt ipos), div_le_div_iff₀ ipos ipos]
        exact mul_le_mul_of_nonneg_right (by linarith) ipos.le
      have hfl : ⌊(B - t) / sendInterval⌋ + 1 ≤
          ⌊(B - s.last_send_time) / sendInterval⌋ := by
        calc ⌊(B - t) / sendInterval⌋ + 1
            = ⌊(B - t) / sendInterval + 1⌋ := (Int.floor_add_one _).symm
          _ ≤ ⌊(B - s.last_send_time) / sendInterval⌋ :=
              Int.floor_mono hmono
      have hnn : 0 ≤ ⌊(B - t) / sendInterval⌋ :=
        Int.floor_nonneg.mpr (div_nonneg (by linarith) ipos.le)
      simp only [List.length_cons]
      omega
    · push_neg at hw
      have hnoop : send_density s t d ok = (s, []) := by
        apply send_density_noop
        by_cases hrate : t - s.last_send_time < sendInterval
        · exact Or.inl hrate
        · by_cases hconn : s.serial_some = true ∧ s.demo_mode = false
          · exact Or.inr (Or.inr
              (Bool.not_eq_true ok ▸ hw (le_of_not_lt hrate) hconn.1 hconn.2))
          · exact Or.inr (Or.inl hconn)
      rw [runSends_cons_noop s t d ok rest hnoop]
      exact ih s hBrest

/-- C4: `send_density` is rate-limited to at most one wire write per
`sendInterval` (10 ms): any burst of calls whose times all lie in a window
`[t0, t0 + T]` writes at most `⌊T / sendInterval⌋ + 1` frames, and a call
arriving sooner than `sendInterval` after the last successful send is
dropped silently — the state is unchanged and nothing reaches the wire. -/
theorem send_density_rate_limited (s : MCUState)
    (calls : List (ℚ × ℕ × Bool)) (t0 T : ℚ) (hT : 0 ≤ T)
    (hcalls : ∀ c ∈ calls, t0 ≤ c.1 ∧ c.1 ≤ t0 + T) :
    (((runSends s calls).2.length : ℤ) ≤ ⌊T / sendInterval⌋ + 1) ∧
      ∀ (s' : MCUState) (t : ℚ) (d : ℕ) (ok : Bool),
        t - s'.last_send_time < sendInterval →
          send_density s' t d ok = (s', []) := by
  have ipos : (0 : ℚ) < sendInterval := sendInterval_pos
  have hTnn : 0 ≤ ⌊T / sendInterval⌋ :=
    Int.floor_nonneg.mpr (div_nonneg hT ipos.le)
  have hmain : ∀ cs : List (ℚ × ℕ × Bool),
      (∀ c ∈ cs, t0 ≤ c.1 ∧ c.1 ≤ t0 + T) → ∀ s : MCUState,
        ((runSends s cs).2.length : ℤ) ≤ ⌊T / sendInterval⌋ + 1 := by
    intro cs
    induction cs with
    | nil =>
      intro _ s
      simp only [runSends, List.length_nil, Nat.cast_zero]
      omega
    | cons c rest ih =>
      intro hcs s
      obtain ⟨t, d, ok⟩ := c
      have ht := hcs _ (List.mem_cons_self _ _)
      have hrest : ∀ c ∈ rest, t0 ≤ c.1 ∧ c.1 ≤ t0 + T := fun c hc =>
        hcs c (List.mem_cons_of_mem _ hc)
      by_cases hw : ¬(t - s.last_send_time < sendInterval) ∧
          s.serial_some = true ∧ s.demo_mode = false ∧ ok = true
      · obtain ⟨hrate, hser, hdm, hok⟩ := hw
        subst hok
        rw [runSends_cons_write s t d rest hrate hser hdm]
        have hbound := runSends_length_le_floor rest
          { s with last_send_time := t } (t0 + T)
          (fun c hc => (hrest c hc).2)
        dsimp only at hbound
        have hle : ⌊(t0 + T - t) / sendInterval⌋ ≤ ⌊T / sendInterval⌋ := by
          apply Int.floor_mono
          rw [div_le_div_iff₀ ipos ipos]
          exact mul_le_mul_of_nonneg_right (by linarith [ht.1]) ipos.le
        simp only [List.length_cons]
        omega
      · push_neg at hw
        have hnoop : send_density s t d ok = (s, []) := by
          apply send_density_noop
          by_cases hrate : t - s.last_send_time < sendInterval
          · exact Or.inl hrate
          · by_cases hconn : s.serial_some = true ∧ s.demo_mode = false
            · exact Or.inr (Or.inr
                (Bool.not_eq_true ok ▸ hw (le_of_not_lt hrate) hconn.1 hconn.2))
            · exact Or.inr (Or.inl hconn)
        rw [runSends_cons_noop s t d ok rest hnoop]
        exact ih hrest s
  exact ⟨hmain calls hcalls s, fun s' t d ok h =>
    send_density_noop s' t d ok (Or.inl h)⟩

/-- Witness for C4: a three-call burst inside a 20 ms window on a
connected session writes at most `⌊0.02 / 0.01⌋ + 1 = 3` frames. -/
theorem send_density_rate_limited_witness :
    ((0 : ℚ) ≤ 2 / 100 ∧
      ∀ c ∈ [((1 : ℚ), 5, true), (1 + 1/1000, 6, true), (1 + 2/100, 7, true)],
        (1 : ℚ) ≤ c.1 ∧ c.1 ≤ 1 + 2 / 100) ∧
    (((runSends (connect initMCU true)
        [((1 : ℚ), 5, true), (1 + 1/1000, 6, true),
          (1 + 2/100, 7, true)]).2.length : ℤ) ≤
      ⌊(2 / 100 : ℚ) / sendInterval⌋ + 1) :=
  ⟨⟨by norm_num, by
      intro c hc
      simp only [List.mem_cons, List.not_mem_nil, or_false] at hc
      rcases hc with rfl | rfl | rfl <;> constructor <;> norm_num⟩,
    (send_density_rate_limited (connect initMCU true)
      [((1 : ℚ), 5, true), (1 + 1/1000, 6, true), (1 + 2/100, 7, true)]
      1 (2 / 100) (by norm_num)
      (by
        intro c hc
        simp only [List.mem_cons, List.not_mem_nil, or_false] at hc
        rcases hc with rfl | rfl | rfl <;> constructor <;> norm_num)).1⟩

/-- C9: on a control-loop tick whose cursor coordinates fall outside the
image bounds, `process_haptic_feedback` returns immediately: the scanner
state (in particular `current_density` and `prev_density`) is unchanged
and no density frame is dispatched. -/
theorem process_haptic_feedback_skips_out_of_bounds (st : ScannerState)
    (w h : ℕ) (hm : Option (List (List ℕ))) (mx my : ℤ) (t : ℚ) (ok : Bool)
    (hout : ¬(0 ≤ mx ∧ mx < (w : ℤ) ∧ 0 ≤ my ∧ my < (h : ℤ))) :
    process_haptic_feedback st w h hm mx my t ok = (st, []) := by
  simp [process_haptic_feedback, hout]

/-- Witness for C9: cursor at `x = -1` on a 600×600 image. -/
theorem process_haptic_feedback_skips_out_of_bounds_witness :
    (¬((0 : ℤ) ≤ -1 ∧ (-1 : ℤ) < (600 : ℕ) ∧ (0 : ℤ) ≤ 5 ∧
      (5 : ℤ) < (600 : ℕ))) ∧
    process_haptic_feedback ⟨initMCU, 3, 4⟩ 600 600 (some [[80]]) (-1) 5 100
      true = (⟨initMCU, 3, 4⟩, []) :=
  ⟨by decide, process_haptic_feedback_skips_out_of_bounds ⟨initMCU, 3, 4⟩
    600 600 (some [[80]]) (-1) 5 100 true (by decide)⟩

end HapticTexture
